import Mathlib

/-!
Shallow embedding of a two-mode 2D particle physics engine:
mode a (`bh.py`, `BlackHoleSim`: central attractor with absorption) and
mode b (`e.py`, `Simulation`: uniform gravity, wall reflection, impulse
collisions). Python floats are modelled as exact rationals. `math.sqrt` /
`math.hypot` and the fractional power in the softened denominator do not
exist on ℚ, so every square root the code takes is passed in as an explicit
parameter, characterised in theorems by the hypotheses `0 ≤ s` and
`s * s = argument`, or abstracted as an oracle function where a whole pass
needs it. Exact-real identities are used for guards: `hypot dx dy == 0`
iff `dx*dx + dy*dy == 0`, and `hypot dx dy ≤ rs` iff
`dx*dx + dy*dy ≤ rs*rs` for `rs ≥ 0`.
-/

namespace BH

/-- Gravitational constant of `bh.py` (`G = 10.0`). -/
def G : ℚ := 10

/-- Softening length, the local `soft = 6.0` of `compute_acceleration`. -/
def soft : ℚ := 6

/-- Trail capacity, `self.trail_length = 30`. -/
def trail_length : ℕ := 30

/-- Base time step, `self.base_dt = 1.0 / FPS` with `FPS = 60`. -/
def base_dt : ℚ := 1 / 60

/-- Particle record of `bh.py` (`x`, `y`, `vx`, `vy`, `color`, `trail`). -/
structure Particle where
  x : ℚ
  y : ℚ
  vx : ℚ
  vy : ℚ
  color : String
  trail : List (ℚ × ℚ)
deriving DecidableEq

/-- `BlackHoleSim.schwarzschild_radius`: `r_s = 2 * M` (G = c = 1). -/
def schwarzschild_radius (M : ℚ) : ℚ := 2 * M

/-- `BlackHoleSim.compute_acceleration(px, py)` for attractor mass `M` and
center `(cx, cy)`. The code guards `r == 0` (equivalently, in exact
arithmetic, `dx*dx + dy*dy == 0`) and otherwise returns
`(-G*M*dx/denom, -G*M*dy/denom)` where `denom = (r*r + soft*soft) ** 1.5`;
`denom` is irrational in general and is therefore a parameter here,
characterised where needed by `0 ≤ denom` and
`denom * denom = (dx*dx + dy*dy + soft*soft)^3`. -/
def compute_acceleration (M cx cy px py denom : ℚ) : ℚ × ℚ :=
  let dx := px - cx
  let dy := py - cy
  if dx * dx + dy * dy = 0 then (0, 0)
  else (-G * M * dx / denom, -G * M * dy / denom)

/-- The spec's own words for the mode-a force model
(`a = -G·M·(p - center) / (|p - center|² + s²)^{3/2}`), with the same
denominator parameter; written for refinement comparison with
`compute_acceleration`, not translated from the code. -/
def specCentralAccel (M cx cy px py denom : ℚ) : ℚ × ℚ :=
  (-(G * M) * (px - cx) / denom, -(G * M) * (py - cy) / denom)

/-- One particle's update inside `BlackHoleSim.step`: symplectic Euler
(velocity then position, acceleration at the pre-update position) followed
by the trail append/evict. The acceleration function is abstract: the
concrete one needs a real-valued power, see `compute_acceleration`. -/
def tickParticle (accel : ℚ → ℚ → ℚ × ℚ) (dt : ℚ) (p : Particle) : Particle :=
  let a := accel p.x p.y
  let vx' := p.vx + a.1 * dt
  let vy' := p.vy + a.2 * dt
  let x' := p.x + vx' * dt
  let y' := p.y + vy' * dt
  let t := p.trail ++ [(x', y')]
  let t' := if trail_length < t.length then t.drop 1 else t
  { p with x := x', y := y', vx := vx', vy := vy', trail := t' }

/-- Capture test of `step`: `math.hypot(p.x - cx, p.y - cy) <= r_s`,
rendered sqrt-free as `dist² ≤ r_s²` (equivalent for `r_s ≥ 0`;
`r_s = 2M` and the code keeps `M ≥ 1`). -/
def captured (rs cx cy : ℚ) (p : Particle) : Bool :=
  decide ((p.x - cx) * (p.x - cx) + (p.y - cy) * (p.y - cy) ≤ rs * rs)

/-- The per-particle pass of `BlackHoleSim.step`: updates every particle in
order and collects the captured ones into the `remove` list, mirroring the
Python loop. Returns (updated particles, remove list). -/
def stepLoop (accel : ℚ → ℚ → ℚ × ℚ) (dt rs cx cy : ℚ) :
    List Particle → List Particle × List Particle
  | [] => ([], [])
  | p :: ps =>
    let q := tickParticle accel dt p
    let rest := stepLoop accel dt rs cx cy ps
    (q :: rest.1, (if captured rs cx cy q then [q] else []) ++ rest.2)

/-- `BlackHoleSim.step`: run the pass, then
`for p in remove: self.particles.remove(p)` — deferred batch removal,
each `remove(p)` deleting the first matching element. -/
def step (accel : ℚ → ℚ → ℚ × ℚ) (dt M cx cy : ℚ) (ps : List Particle) :
    List Particle :=
  let rs := schwarzschild_radius M
  let r := stepLoop accel dt rs cx cy ps
  List.foldl (fun l q => l.erase q) r.1 r.2

/-- `]` key: `self.speed_mult *= 2.0`. -/
def speedUp (s : ℚ) : ℚ := s * 2

/-- `[` key: `self.speed_mult = max(0.125, self.speed_mult / 2.0)`. -/
def slowDown (s : ℚ) : ℚ := max (1/8) (s / 2)

/-- The two speed-adjustment commands of `bh.py`. -/
inductive SpeedCmd where
  | up : SpeedCmd
  | down : SpeedCmd

/-- Apply one speed command to the multiplier. -/
def applySpeed : SpeedCmd → ℚ → ℚ
  | SpeedCmd.up, s => speedUp s
  | SpeedCmd.down, s => slowDown s

end BH

namespace E

/-- Domain width of `e.py` (`WIDTH = 800`). -/
def WIDTH : ℚ := 800

/-- Domain height of `e.py` (`HEIGHT = 600`). -/
def HEIGHT : ℚ := 600

/-- `GRAVITY = 200.0` (px/s², downward). -/
def GRAVITY : ℚ := 200

/-- `FRICTION = 1.0` (multiplicative per-step velocity decay; 1 = none). -/
def FRICTION : ℚ := 1

/-- The local restitution constant of `_resolve_collisions`
(`e = 0.95`, hardcoded). -/
def restitution : ℚ := 19 / 20

/-- Base frame time, `self.dt = 0.016`. -/
def base_dt : ℚ := 2 / 125

/-- Particle dataclass of `e.py` (`x`, `y`, `vx`, `vy`, `r`, `m`, `color`). -/
structure Particle where
  x : ℚ
  y : ℚ
  vx : ℚ
  vy : ℚ
  r : ℚ
  m : ℚ
  color : String
deriving DecidableEq

/-- Integration part of `Simulation._step` for one particle:
`vy += GRAVITY*dt; vx *= FRICTION; vy *= FRICTION; x += vx*dt; y += vy*dt`. -/
def integrate (dt : ℚ) (p : Particle) : Particle :=
  let vy1 := p.vy + GRAVITY * dt
  let vx1 := p.vx * FRICTION
  let vy2 := vy1 * FRICTION
  { p with vx := vx1, vy := vy2, x := p.x + vx1 * dt, y := p.y + vy2 * dt }

/-- `Simulation._handle_wall_collision`: four sequential edge checks; each
clamps the center and sets the normal velocity component via `abs`. -/
def handle_wall_collision (p : Particle) : Particle :=
  let p1 := if p.x - p.r < 0 then { p with x := p.r, vx := |p.vx| } else p
  let p2 := if p1.x + p1.r > WIDTH then
    { p1 with x := WIDTH - p1.r, vx := -|p1.vx| } else p1
  let p3 := if p2.y - p2.r < 0 then { p2 with y := p2.r, vy := |p2.vy| } else p2
  if p3.y + p3.r > HEIGHT then
    { p3 with y := HEIGHT - p3.r, vy := -|p3.vy| } else p3

/-- Inner-loop body of `Simulation._resolve_collisions` for one unordered
pair `(a, b)`: guarded by `dist2 <= radii*radii and dist2 > 0`; positional
correction, then impulse exchange unless the pair is separating.
`dist` stands for `math.sqrt(dist2)` and is a parameter (see module
docstring); it is only used inside the guarded branch. -/
def resolvePair (a b : Particle) (dist : ℚ) : Particle × Particle :=
  let dx := b.x - a.x
  let dy := b.y - a.y
  let dist2 := dx * dx + dy * dy
  let radii := a.r + b.r
  if dist2 ≤ radii * radii ∧ 0 < dist2 then
    let nx := dx / dist
    let ny := dy / dist
    let overlap := radii - dist
    let total_mass := a.m + b.m
    let a1 := { a with x := a.x - nx * (overlap * (b.m / total_mass)),
                       y := a.y - ny * (overlap * (b.m / total_mass)) }
    let b1 := { b with x := b.x + nx * (overlap * (a.m / total_mass)),
                       y := b.y + ny * (overlap * (a.m / total_mass)) }
    let rvx := b1.vx - a1.vx
    let rvy := b1.vy - a1.vy
    let vel_along_normal := rvx * nx + rvy * ny
    if 0 < vel_along_normal then (a1, b1)
    else
      let j := (-(1 + restitution) * vel_along_normal) / (1 / a.m + 1 / b.m)
      let impulse_x := j * nx
      let impulse_y := j * ny
      ({ a1 with vx := a1.vx - impulse_x / a.m, vy := a1.vy - impulse_y / a.m },
       { b1 with vx := b1.vx + impulse_x / b.m, vy := b1.vy + impulse_y / b.m })
  else (a, b)

/-- Resolve one particle against each later particle in order, threading the
state updates, as the inner `for j in range(i+1, n)` loop does. The square
roots the pass takes are supplied by the oracle `sqrtQ`. -/
def resolveOne (sqrtQ : ℚ → ℚ) (a : Particle) :
    List Particle → Particle × List Particle
  | [] => (a, [])
  | b :: rest =>
    let dx := b.x - a.x
    let dy := b.y - a.y
    let ab := resolvePair a b (sqrtQ (dx * dx + dy * dy))
    let arest := resolveOne sqrtQ ab.1 rest
    (arest.1, ab.2 :: arest.2)

/-- `resolveOne` returns as many later particles as it was given. -/
theorem resolveOne_snd_length (sqrtQ : ℚ → ℚ) :
    ∀ (l : List Particle) (a : Particle), (resolveOne sqrtQ a l).2.length = l.length
  | [], _ => rfl
  | b :: rest, a => by
    simp [resolveOne, resolveOne_snd_length sqrtQ rest]

/-- `Simulation._resolve_collisions`: all unordered pairs in ascending index
order — particle `i` against each `j > i`, then the remainder. -/
def resolve_collisions (sqrtQ : ℚ → ℚ) : List Particle → List Particle
  | [] => []
  | a :: rest =>
    let r := resolveOne sqrtQ a rest
    r.1 :: resolve_collisions sqrtQ r.2
termination_by l => l.length
decreasing_by
  simp [resolveOne_snd_length]

/-- `Simulation._step dt`: integrate and wall-handle every particle
(independently, in one pass), then resolve pairwise collisions. Drawing is
presentation and is not modelled. -/
def step (sqrtQ : ℚ → ℚ) (dt : ℚ) (ps : List Particle) : List Particle :=
  resolve_collisions sqrtQ (ps.map (fun p => handle_wall_collision (integrate dt p)))

/-- `Simulation._change_speed(factor)`:
`speed *= factor; speed = max(0.1, min(10.0, speed))`. -/
def change_speed (factor s : ℚ) : ℚ := max (1/10) (min 10 (s * factor))

end E

namespace E

/-- If the guard `dist2 ≤ radii*radii and dist2 > 0` fails, the resolver
leaves the pair unchanged. -/
theorem resolvePair_skip (a b : Particle) (dist : ℚ)
    (h : ¬ (((b.x - a.x) * (b.x - a.x) + (b.y - a.y) * (b.y - a.y) ≤
          (a.r + b.r) * (a.r + b.r)) ∧
        0 < (b.x - a.x) * (b.x - a.x) + (b.y - a.y) * (b.y - a.y))) :
    resolvePair a b dist = (a, b) := by
  simp only [resolvePair]
  exact if_neg h

/-- Positions (and masses, radii) after `resolvePair` on a colliding pair:
the positional correction, identical in both velocity branches. -/
theorem resolvePair_positions (a b : Particle) (dist : ℚ)
    (hcol : (b.x - a.x) * (b.x - a.x) + (b.y - a.y) * (b.y - a.y) ≤
        (a.r + b.r) * (a.r + b.r))
    (hpos : 0 < (b.x - a.x) * (b.x - a.x) + (b.y - a.y) * (b.y - a.y)) :
    (resolvePair a b dist).1.x
        = a.x - (b.x - a.x) / dist * ((a.r + b.r - dist) * (b.m / (a.m + b.m)))
  ∧ (resolvePair a b dist).1.y
        = a.y - (b.y - a.y) / dist * ((a.r + b.r - dist) * (b.m / (a.m + b.m)))
  ∧ (resolvePair a b dist).2.x
        = b.x + (b.x - a.x) / dist * ((a.r + b.r - dist) * (a.m / (a.m + b.m)))
  ∧ (resolvePair a b dist).2.y
        = b.y + (b.y - a.y) / dist * ((a.r + b.r - dist) * (a.m / (a.m + b.m)))
  ∧ (resolvePair a b dist).1.m = a.m ∧ (resolvePair a b dist).2.m = b.m
  ∧ (resolvePair a b dist).1.r = a.r ∧ (resolvePair a b dist).2.r = b.r := by
  simp only [resolvePair]
  rw [if_pos ⟨hcol, hpos⟩]
  split_ifs <;> exact ⟨rfl, rfl, rfl, rfl, rfl, rfl, rfl, rfl⟩

/-- On a colliding pair that is already separating (`vn > 0`), the resolver
does not touch any velocity. -/
theorem resolvePair_separating (a b : Particle) (dist : ℚ)
    (hcol : (b.x - a.x) * (b.x - a.x) + (b.y - a.y) * (b.y - a.y) ≤
        (a.r + b.r) * (a.r + b.r))
    (hpos : 0 < (b.x - a.x) * (b.x - a.x) + (b.y - a.y) * (b.y - a.y))
    (hsep : 0 < (b.vx - a.vx) * ((b.x - a.x) / dist) +
        (b.vy - a.vy) * ((b.y - a.y) / dist)) :
    (resolvePair a b dist).1.vx = a.vx ∧ (resolvePair a b dist).1.vy = a.vy
  ∧ (resolvePair a b dist).2.vx = b.vx ∧ (resolvePair a b dist).2.vy = b.vy := by
  simp only [resolvePair]
  rw [if_pos ⟨hcol, hpos⟩, if_pos hsep]
  exact ⟨rfl, rfl, rfl, rfl⟩

/-- On a colliding, non-separating pair the resolver applies exactly the
code's impulse: `j = -(1+e)·vn / (1/m_a + 1/m_b)`, `v_a -= (j·n)/m_a`,
`v_b += (j·n)/m_b`. -/
theorem resolvePair_impulse (a b : Particle) (dist : ℚ)
    (hcol : (b.x - a.x) * (b.x - a.x) + (b.y - a.y) * (b.y - a.y) ≤
        (a.r + b.r) * (a.r + b.r))
    (hpos : 0 < (b.x - a.x) * (b.x - a.x) + (b.y - a.y) * (b.y - a.y))
    (hnsep : ¬ 0 < (b.vx - a.vx) * ((b.x - a.x) / dist) +
        (b.vy - a.vy) * ((b.y - a.y) / dist)) :
    (resolvePair a b dist).1.vx
        = a.vx - (-(1 + restitution) * ((b.vx - a.vx) * ((b.x - a.x) / dist) +
            (b.vy - a.vy) * ((b.y - a.y) / dist)) / (1 / a.m + 1 / b.m)) *
              ((b.x - a.x) / dist) / a.m
  ∧ (resolvePair a b dist).1.vy
        = a.vy - (-(1 + restitution) * ((b.vx - a.vx) * ((b.x - a.x) / dist) +
            (b.vy - a.vy) * ((b.y - a.y) / dist)) / (1 / a.m + 1 / b.m)) *
              ((b.y - a.y) / dist) / a.m
  ∧ (resolvePair a b dist).2.vx
        = b.vx + (-(1 + restitution) * ((b.vx - a.vx) * ((b.x - a.x) / dist) +
            (b.vy - a.vy) * ((b.y - a.y) / dist)) / (1 / a.m + 1 / b.m)) *
              ((b.x - a.x) / dist) / b.m
  ∧ (resolvePair a b dist).2.vy
        = b.vy + (-(1 + restitution) * ((b.vx - a.vx) * ((b.x - a.x) / dist) +
            (b.vy - a.vy) * ((b.y - a.y) / dist)) / (1 / a.m + 1 / b.m)) *
              ((b.y - a.y) / dist) / b.m := by
  simp only [resolvePair]
  rw [if_pos ⟨hcol, hpos⟩, if_neg hnsep]
  exact ⟨rfl, rfl, rfl, rfl⟩

end E

namespace BH

/-- Erasing elements never equal to the head leaves the head in place. -/
theorem foldl_erase_cons (x : Particle) (l r : List Particle)
    (h : ∀ y ∈ r, y ≠ x) :
    List.foldl (fun s q => s.erase q) (x :: l) r
      = x :: List.foldl (fun s q => s.erase q) l r := by
  induction r generalizing l with
  | nil => rfl
  | cons y ys ih =>
    simp only [List.foldl_cons]
    rw [List.erase_cons_tail (by simp [Ne.symm (h y (by simp))]),
      ih _ (fun z hz => h z (by simp [hz]))]

/-- Erasing, one by one, exactly the elements satisfying `p` from a list
removes precisely those elements: the Python
`for p in remove: particles.remove(p)` batch equals a single filter. -/
theorem foldl_erase_filter (p : Particle → Bool) :
    ∀ l : List Particle,
      List.foldl (fun s q => s.erase q) l (l.filter p)
        = l.filter (fun q => !(p q))
  | [] => rfl
  | x :: xs => by
    by_cases hx : p x
    · rw [List.filter_cons_of_pos hx, List.filter_cons_of_neg (by simp [hx])]
      simp only [List.foldl_cons, List.erase_cons_head]
      exact foldl_erase_filter p xs
    · rw [List.filter_cons_of_neg (by simp [hx]),
        List.filter_cons_of_pos (by simp [hx]),
        foldl_erase_cons x xs (xs.filter p)
          (fun y hy => fun hyx => hx (by rw [← hyx]; exact (List.mem_filter.mp hy).2)),
        foldl_erase_filter p xs]

/-- The per-particle pass returns the updated particles in order, and the
remove list is exactly the captured ones among them, in order. -/
theorem stepLoop_spec (accel : ℚ → ℚ → ℚ × ℚ) (dt rs cx cy : ℚ) :
    ∀ ps : List Particle,
      stepLoop accel dt rs cx cy ps
        = ((ps.map (tickParticle accel dt)),
           (ps.map (tickParticle accel dt)).filter (captured rs cx cy))
  | [] => rfl
  | p :: ps => by
    simp only [stepLoop, stepLoop_spec accel dt rs cx cy ps, List.map_cons,
      List.filter_cons]
    by_cases hc : captured rs cx cy (tickParticle accel dt p) = true <;> simp [hc]

/-- The speed multiplier's lower bound `1/8` (= 0.125) is preserved by both
speed commands. -/
theorem applySpeed_lb (c : SpeedCmd) (s : ℚ) (h : 1/8 ≤ s) :
    1/8 ≤ applySpeed c s := by
  cases c with
  | up => simp only [applySpeed, speedUp]; linarith
  | down => exact le_max_left _ _

/-- Any command sequence keeps the multiplier at or above `1/8`. -/
theorem foldSpeed_lb (cmds : List SpeedCmd) :
    ∀ s : ℚ, 1/8 ≤ s →
      1/8 ≤ List.foldl (fun t c => applySpeed c t) s cmds := by
  induction cmds with
  | nil => exact fun s h => h
  | cons c cs ih => exact fun s h => ih _ (applySpeed_lb c s h)

end BH

/-- C1: in both integrators (the per-particle update of `BlackHoleSim.step`
and of `Simulation._step`) the velocity is updated first, from the
acceleration evaluated at the pre-update position, and the position is then
updated with the already-updated velocity; the tick depends on the
acceleration function only through its value at the pre-update position
(one evaluation per particle per tick); and under zero acceleration the
position advances by exactly `vel·Δt` while the velocity is unchanged. -/
theorem C1_symplectic_euler_order (accel : ℚ → ℚ → ℚ × ℚ) (dt : ℚ)
    (p : BH.Particle) (q : E.Particle) :
    (BH.tickParticle accel dt p).vx = p.vx + (accel p.x p.y).1 * dt
  ∧ (BH.tickParticle accel dt p).vy = p.vy + (accel p.x p.y).2 * dt
  ∧ (BH.tickParticle accel dt p).x = p.x + (BH.tickParticle accel dt p).vx * dt
  ∧ (BH.tickParticle accel dt p).y = p.y + (BH.tickParticle accel dt p).vy * dt
  ∧ (∀ accel2 : ℚ → ℚ → ℚ × ℚ, accel2 p.x p.y = accel p.x p.y →
      BH.tickParticle accel2 dt p = BH.tickParticle accel dt p)
  ∧ (accel p.x p.y = (0, 0) →
      (BH.tickParticle accel dt p).x = p.x + p.vx * dt
    ∧ (BH.tickParticle accel dt p).y = p.y + p.vy * dt
    ∧ (BH.tickParticle accel dt p).vx = p.vx
    ∧ (BH.tickParticle accel dt p).vy = p.vy)
  ∧ (E.integrate dt q).vy = q.vy + E.GRAVITY * dt
  ∧ (E.integrate dt q).vx = q.vx
  ∧ (E.integrate dt q).x = q.x + (E.integrate dt q).vx * dt
  ∧ (E.integrate dt q).y = q.y + (E.integrate dt q).vy * dt := by
  refine ⟨rfl, rfl, rfl, rfl, ?_, ?_, ?_, ?_, rfl, rfl⟩
  · intro accel2 h
    simp only [BH.tickParticle, h]
  · intro h
    refine ⟨?_, ?_, ?_, ?_⟩ <;> simp [BH.tickParticle, h]
  · simp [E.integrate, E.FRICTION]
  · simp [E.integrate, E.FRICTION]

/-- Witness for C1 at a concrete particle and the zero acceleration field. -/
theorem C1_symplectic_euler_order_witness :
    (BH.tickParticle (fun _ _ => (0, 0)) 1 ⟨1, 2, 3, 4, "", []⟩).x = 1 + 3 * 1
  ∧ (BH.tickParticle (fun _ _ => (0, 0)) 1 ⟨1, 2, 3, 4, "", []⟩).vx = 3 := by
  have h := (C1_symplectic_euler_order (fun _ _ => (0, 0)) 1 ⟨1, 2, 3, 4, "", []⟩
      ⟨0, 0, 0, 0, 1, 1, ""⟩).2.2.2.2.2.1 rfl
  exact ⟨h.1, h.2.2.1⟩

/-- C7: `BlackHoleSim.compute_acceleration` equals the spec's softened
central-attractor formula (with the same real-valued denominator
`(|p-center|² + s²)^{3/2}`, pinned down by the two hypotheses), it is a pure
function of position and current `M` (it is a function in this embedding,
with no state), it returns exactly `(0, 0)` at the attractor center for any
denominator, and the softening length is a fixed positive constant. -/
theorem C7_central_acceleration (M cx cy px py denom : ℚ)
    (hd0 : 0 ≤ denom)
    (hd : denom * denom
        = ((px - cx) * (px - cx) + (py - cy) * (py - cy) + BH.soft * BH.soft)^3) :
    BH.compute_acceleration M cx cy px py denom
        = BH.specCentralAccel M cx cy px py denom
  ∧ (∀ d2 : ℚ, BH.compute_acceleration M cx cy cx cy d2 = (0, 0))
  ∧ 0 < BH.soft := by
  refine ⟨?_, ?_, by norm_num [BH.soft]⟩
  · simp only [BH.compute_acceleration, BH.specCentralAccel]
    by_cases h : (px - cx) * (px - cx) + (py - cy) * (py - cy) = 0
    · rw [if_pos h]
      have hx : px - cx = 0 := by
        nlinarith [mul_self_nonneg (px - cx), mul_self_nonneg (py - cy)]
      have hy : py - cy = 0 := by
        nlinarith [mul_self_nonneg (px - cx), mul_self_nonneg (py - cy)]
      rw [hx, hy]
      simp
    · rw [if_neg h]
      simp only [Prod.mk.injEq]
      constructor <;> ring
  · intro d2
    simp [BH.compute_acceleration]

/-- Witness for C7: at `(8, 0)` from center `(0, 0)` the denominator is the
rational `(64 + 36)^{3/2} = 1000`, and the center evaluation is `(0, 0)`. -/
theorem C7_central_acceleration_witness :
    BH.compute_acceleration 40 0 0 8 0 1000 = BH.specCentralAccel 40 0 0 8 0 1000
  ∧ BH.compute_acceleration 40 0 0 0 0 216 = (0, 0) := by
  have h := C7_central_acceleration 40 0 0 8 0 1000 (by norm_num)
    (by norm_num [BH.soft])
  exact ⟨h.1, h.2.1 216⟩

/-- C8: `BlackHoleSim.step` equals one independent update of every particle
(each evaluated exactly once, by `List.map`) followed by a single batch
filter removing exactly the particles whose post-update distance to the
center is within the absorption radius `r_s = 2·M`: the deferred
`remove`-list pass is equivalent to that map-then-filter. -/
theorem C8_absorption_batch (accel : ℚ → ℚ → ℚ × ℚ) (dt M cx cy : ℚ)
    (ps : List BH.Particle) :
    BH.step accel dt M cx cy ps
      = (ps.map (BH.tickParticle accel dt)).filter
          (fun q => !(BH.captured (BH.schwarzschild_radius M) cx cy q)) := by
  simp only [BH.step, BH.stepLoop_spec]
  exact BH.foldl_erase_filter _ _

/-- C9: after any sequence of speed commands, mode a's multiplier (started
at 1) stays at or above 0.125 and the effective `Δt = base_dt · mult` is
strictly positive; mode b's `_change_speed` always lands in `[0.1, 10]` and
keeps its effective step positive. -/
theorem C9_speed_clamp :
    (∀ cmds : List BH.SpeedCmd,
        1/8 ≤ List.foldl (fun t c => BH.applySpeed c t) 1 cmds
      ∧ 0 < BH.base_dt * List.foldl (fun t c => BH.applySpeed c t) 1 cmds)
  ∧ (∀ factor s : ℚ,
        1/10 ≤ E.change_speed factor s ∧ E.change_speed factor s ≤ 10
      ∧ 0 < E.base_dt * E.change_speed factor s) := by
  constructor
  · intro cmds
    have h := BH.foldSpeed_lb cmds 1 (by norm_num)
    refine ⟨h, ?_⟩
    have hb : (0:ℚ) < BH.base_dt := by norm_num [BH.base_dt]
    nlinarith
  · intro factor s
    have h1 : (1:ℚ)/10 ≤ E.change_speed factor s := le_max_left _ _
    refine ⟨h1, ?_, ?_⟩
    · exact max_le (by norm_num) (min_le_left _ _)
    · have hb : (0:ℚ) < E.base_dt := by norm_num [E.base_dt]
      nlinarith

/-- C10: one tick of either simulation is a deterministic function of the
current particle store and the parameters: the embedded pipelines
(integration, boundary handling, collision resolution, trail update) are
pure functions of the state, the time step and the numeric oracles, with no
randomness source, so equal starting states give equal resulting states. -/
theorem C10_tick_deterministic (accel : ℚ → ℚ → ℚ × ℚ) (sqrtQ : ℚ → ℚ)
    (dtA dtB M cx cy : ℚ) (ps qs : List BH.Particle)
    (es fs : List E.Particle)
    (hA : ps = qs) (hB : es = fs) :
    BH.step accel dtA M cx cy ps = BH.step accel dtA M cx cy qs
  ∧ E.step sqrtQ dtB es = E.step sqrtQ dtB fs := by
  subst hA
  subst hB
  exact ⟨rfl, rfl⟩

/-- Witness for C10 on concrete one-particle states. -/
theorem C10_tick_deterministic_witness :
    BH.step (fun _ _ => (0, 0)) 1 40 0 0 [⟨500, 0, 0, 0, "", []⟩]
      = BH.step (fun _ _ => (0, 0)) 1 40 0 0 [⟨500, 0, 0, 0, "", []⟩]
  ∧ E.step (fun _ => 0) 1 [⟨100, 100, 0, 0, 18, 324, ""⟩]
      = E.step (fun _ => 0) 1 [⟨100, 100, 0, 0, 18, 324, ""⟩] :=
  C10_tick_deterministic _ _ 1 1 40 0 0 _ _ _ _ rfl rfl

/-- C2: for every overlapping pair, with unit normal `n = (b.pos - a.pos)/d`
(`d` the true distance: `d > 0`, `d·d = dist2`): if the relative normal
velocity `vn > 0` the velocities are untouched and only the positional
correction is applied; otherwise the impulse is
`j = -(1+e)·vn / (1/m_a + 1/m_b)` and the velocities change by exactly
`v_a -= (j/m_a)·n`, `v_b += (j/m_b)·n` (`e` being the code's restitution
constant). -/
theorem C2_impulse_exchange (a b : E.Particle) (dist : ℚ)
    (hcol : (b.x - a.x) * (b.x - a.x) + (b.y - a.y) * (b.y - a.y) ≤
        (a.r + b.r) * (a.r + b.r))
    (hdist : dist * dist = (b.x - a.x) * (b.x - a.x) + (b.y - a.y) * (b.y - a.y))
    (hd : 0 < dist) :
    (0 < (b.vx - a.vx) * ((b.x - a.x) / dist) + (b.vy - a.vy) * ((b.y - a.y) / dist) →
        (E.resolvePair a b dist).1.vx = a.vx
      ∧ (E.resolvePair a b dist).1.vy = a.vy
      ∧ (E.resolvePair a b dist).2.vx = b.vx
      ∧ (E.resolvePair a b dist).2.vy = b.vy
      ∧ (E.resolvePair a b dist).1.x
          = a.x - (b.x - a.x) / dist * ((a.r + b.r - dist) * (b.m / (a.m + b.m)))
      ∧ (E.resolvePair a b dist).1.y
          = a.y - (b.y - a.y) / dist * ((a.r + b.r - dist) * (b.m / (a.m + b.m)))
      ∧ (E.resolvePair a b dist).2.x
          = b.x + (b.x - a.x) / dist * ((a.r + b.r - dist) * (a.m / (a.m + b.m)))
      ∧ (E.resolvePair a b dist).2.y
          = b.y + (b.y - a.y) / dist * ((a.r + b.r - dist) * (a.m / (a.m + b.m))))
  ∧ (¬ 0 < (b.vx - a.vx) * ((b.x - a.x) / dist) + (b.vy - a.vy) * ((b.y - a.y) / dist) →
        (E.resolvePair a b dist).1.vx
          = a.vx - (-(1 + E.restitution) * ((b.vx - a.vx) * ((b.x - a.x) / dist) +
              (b.vy - a.vy) * ((b.y - a.y) / dist)) / (1 / a.m + 1 / b.m) / a.m) *
                ((b.x - a.x) / dist)
      ∧ (E.resolvePair a b dist).1.vy
          = a.vy - (-(1 + E.restitution) * ((b.vx - a.vx) * ((b.x - a.x) / dist) +
              (b.vy - a.vy) * ((b.y - a.y) / dist)) / (1 / a.m + 1 / b.m) / a.m) *
                ((b.y - a.y) / dist)
      ∧ (E.resolvePair a b dist).2.vx
          = b.vx + (-(1 + E.restitution) * ((b.vx - a.vx) * ((b.x - a.x) / dist) +
              (b.vy - a.vy) * ((b.y - a.y) / dist)) / (1 / a.m + 1 / b.m) / b.m) *
                ((b.x - a.x) / dist)
      ∧ (E.resolvePair a b dist).2.vy
          = b.vy + (-(1 + E.restitution) * ((b.vx - a.vx) * ((b.x - a.x) / dist) +
              (b.vy - a.vy) * ((b.y - a.y) / dist)) / (1 / a.m + 1 / b.m) / b.m) *
                ((b.y - a.y) / dist)) := by
  have hpos : 0 < (b.x - a.x) * (b.x - a.x) + (b.y - a.y) * (b.y - a.y) :=
    hdist ▸ mul_pos hd hd
  constructor
  · intro hsep
    obtain ⟨h1, h2, h3, h4⟩ := E.resolvePair_separating a b dist hcol hpos hsep
    obtain ⟨p1, p2, p3, p4, -⟩ := E.resolvePair_positions a b dist hcol hpos
    exact ⟨h1, h2, h3, h4, p1, p2, p3, p4⟩
  · intro hnsep
    obtain ⟨h1, h2, h3, h4⟩ := E.resolvePair_impulse a b dist hcol hpos hnsep
    refine ⟨?_, ?_, ?_, ?_⟩
    · rw [h1]; ring
    · rw [h2]; ring
    · rw [h3]; ring
    · rw [h4]; ring

/-- Witness for C2: an approaching equal-mass pair at rational distance 15,
combined radius 20; the impulse branch fires and gives `v_a.x = -47.5`. -/
theorem C2_impulse_exchange_witness :
    (E.resolvePair ⟨0, 0, 50, 0, 10, 100, ""⟩ ⟨15, 0, -50, 0, 10, 100, ""⟩ 15).1.vx
      = -95/2 := by
  have h := ((C2_impulse_exchange ⟨0, 0, 50, 0, 10, 100, ""⟩
      ⟨15, 0, -50, 0, 10, 100, ""⟩ 15 (by norm_num) (by norm_num) (by norm_num)).2
      (by norm_num)).1
  rw [h]
  norm_num [E.restitution]

/-- C3: positional correction on a colliding pair displaces `a` by
`-n·overlap·(m_b/(m_a+m_b))` and `b` by `+n·overlap·(m_a/(m_a+m_b))`
(`overlap = R - d`), the mass-weighted displacement sum vanishes in both
coordinates (combined center of mass conserved), and the corrected centers
are exactly `R = r_a + r_b` apart (overlap removed exactly). -/
theorem C3_positional_correction (a b : E.Particle) (dist : ℚ)
    (hcol : (b.x - a.x) * (b.x - a.x) + (b.y - a.y) * (b.y - a.y) ≤
        (a.r + b.r) * (a.r + b.r))
    (hdist : dist * dist = (b.x - a.x) * (b.x - a.x) + (b.y - a.y) * (b.y - a.y))
    (hd : 0 < dist) (hma : 0 < a.m) (hmb : 0 < b.m) :
    (E.resolvePair a b dist).1.x - a.x
        = -((b.x - a.x) / dist * ((a.r + b.r - dist) * (b.m / (a.m + b.m))))
  ∧ (E.resolvePair a b dist).1.y - a.y
        = -((b.y - a.y) / dist * ((a.r + b.r - dist) * (b.m / (a.m + b.m))))
  ∧ (E.resolvePair a b dist).2.x - b.x
        = (b.x - a.x) / dist * ((a.r + b.r - dist) * (a.m / (a.m + b.m)))
  ∧ (E.resolvePair a b dist).2.y - b.y
        = (b.y - a.y) / dist * ((a.r + b.r - dist) * (a.m / (a.m + b.m)))
  ∧ a.m * ((E.resolvePair a b dist).1.x - a.x)
      + b.m * ((E.resolvePair a b dist).2.x - b.x) = 0
  ∧ a.m * ((E.resolvePair a b dist).1.y - a.y)
      + b.m * ((E.resolvePair a b dist).2.y - b.y) = 0
  ∧ ((E.resolvePair a b dist).2.x - (E.resolvePair a b dist).1.x) *
      ((E.resolvePair a b dist).2.x - (E.resolvePair a b dist).1.x)
    + ((E.resolvePair a b dist).2.y - (E.resolvePair a b dist).1.y) *
      ((E.resolvePair a b dist).2.y - (E.resolvePair a b dist).1.y)
        = (a.r + b.r) * (a.r + b.r) := by
  have hpos : 0 < (b.x - a.x) * (b.x - a.x) + (b.y - a.y) * (b.y - a.y) :=
    hdist ▸ mul_pos hd hd
  obtain ⟨p1, p2, p3, p4, -⟩ := E.resolvePair_positions a b dist hcol hpos
  have hM : (0:ℚ) < a.m + b.m := by linarith
  have hdx : (E.resolvePair a b dist).2.x - (E.resolvePair a b dist).1.x
      = (b.x - a.x) * (a.r + b.r) / dist := by
    rw [p1, p3]
    field_simp
    ring
  have hdy : (E.resolvePair a b dist).2.y - (E.resolvePair a b dist).1.y
      = (b.y - a.y) * (a.r + b.r) / dist := by
    rw [p2, p4]
    field_simp
    ring
  refine ⟨by rw [p1]; ring, by rw [p2]; ring, by rw [p3]; ring, by rw [p4]; ring,
    ?_, ?_, ?_⟩
  · rw [p1, p3]; field_simp; ring
  · rw [p2, p4]; field_simp; ring
  · rw [hdx, hdy]
    field_simp
    linear_combination (-((a.r + b.r) * (a.r + b.r))) * hdist

/-- Witness for C3 on a 3-4-5 colliding pair with unequal masses. -/
theorem C3_positional_correction_witness :
    E.Particle.m ⟨0, 0, 0, 0, 3, 1, ""⟩ *
        ((E.resolvePair ⟨0, 0, 0, 0, 3, 1, ""⟩ ⟨3, 4, 0, 0, 3, 2, ""⟩ 5).1.x - 0)
      + E.Particle.m ⟨3, 4, 0, 0, 3, 2, ""⟩ *
        ((E.resolvePair ⟨0, 0, 0, 0, 3, 1, ""⟩ ⟨3, 4, 0, 0, 3, 2, ""⟩ 5).2.x - 3)
      = 0 := by
  have h := C3_positional_correction ⟨0, 0, 0, 0, 3, 1, ""⟩ ⟨3, 4, 0, 0, 3, 2, ""⟩ 5
    (by norm_num) (by norm_num) (by norm_num) (by norm_num) (by norm_num)
  exact h.2.2.2.2.1

namespace E

/-- Left edge: crossing clamps the center to `x = r` and sets `vx = |vx|`
(provided the clamped particle does not also cross the right edge). -/
theorem wall_left (p : Particle) (hl : p.x - p.r < 0) (hw : ¬ p.r + p.r > WIDTH) :
    (handle_wall_collision p).x = p.r
  ∧ (handle_wall_collision p).vx = |p.vx| := by
  simp only [handle_wall_collision]
  rw [if_pos hl, if_neg hw]
  split_ifs <;> exact ⟨rfl, rfl⟩

/-- Right edge: crossing clamps the center to `x = WIDTH - r` and sets
`vx = -|vx|`. -/
theorem wall_right (p : Particle) (hl : ¬ p.x - p.r < 0) (hr : p.x + p.r > WIDTH) :
    (handle_wall_collision p).x = WIDTH - p.r
  ∧ (handle_wall_collision p).vx = -|p.vx| := by
  simp only [handle_wall_collision]
  rw [if_neg hl, if_pos hr]
  split_ifs <;> exact ⟨rfl, rfl⟩

/-- Top edge: crossing clamps the center to `y = r` and sets `vy = |vy|`
(provided the clamped particle does not also cross the bottom edge). -/
theorem wall_top (p : Particle) (ht : p.y - p.r < 0) (hh : ¬ p.r + p.r > HEIGHT) :
    (handle_wall_collision p).y = p.r
  ∧ (handle_wall_collision p).vy = |p.vy| := by
  simp only [handle_wall_collision]
  split_ifs <;> exact ⟨rfl, rfl⟩

/-- Bottom edge: crossing clamps the center to `y = HEIGHT - r` and sets
`vy = -|vy|`. -/
theorem wall_bottom (p : Particle) (ht : ¬ p.y - p.r < 0) (hb : p.y + p.r > HEIGHT) :
    (handle_wall_collision p).y = HEIGHT - p.r
  ∧ (handle_wall_collision p).vy = -|p.vy| := by
  simp only [handle_wall_collision]
  split_ifs <;> exact ⟨rfl, rfl⟩

/-- The boundary handler never changes a velocity component's magnitude. -/
theorem wall_abs (p : Particle) :
    |(handle_wall_collision p).vx| = |p.vx|
  ∧ |(handle_wall_collision p).vy| = |p.vy| := by
  simp only [handle_wall_collision]
  split_ifs <;> simp [abs_abs]

end E

/-- C4 counterexample: a particle whose extent crosses the left edge
(`x - r = 5 - 18 < 0`) while already moving rightwards (`vx = +50`) keeps
`vx = +50` after `_handle_wall_collision` — the handler applies `abs`, it
does not sign-flip the normal velocity component as the claim states. -/
theorem C4_reflection_counterexample :
    ((⟨5, 300, 50, 0, 18, 324, ""⟩ : E.Particle).x
        - (⟨5, 300, 50, 0, 18, 324, ""⟩ : E.Particle).r < 0)
  ∧ (E.handle_wall_collision ⟨5, 300, 50, 0, 18, 324, ""⟩).vx = 50
  ∧ (E.handle_wall_collision ⟨5, 300, 50, 0, 18, 324, ""⟩).vx
      ≠ -(⟨5, 300, 50, 0, 18, 324, ""⟩ : E.Particle).vx := by
  refine ⟨by norm_num, ?_, ?_⟩ <;>
    norm_num [E.handle_wall_collision, E.WIDTH, E.HEIGHT]

/-- C4 amended: on each crossed edge the handler clamps the center back
inside the domain and sets the normal velocity component to point into the
domain with unchanged magnitude (`|v|` at the left/top edges, `-|v|` at the
right/bottom edges) — a sign-flip exactly when the particle was moving
outward; in particular a particle approaching the left wall with `vx = -50`
and `x - r < 0` ends with `x = r` and `vx = +50`. -/
theorem C4_reflection_amended (p : E.Particle) :
    |(E.handle_wall_collision p).vx| = |p.vx|
  ∧ |(E.handle_wall_collision p).vy| = |p.vy|
  ∧ (p.x - p.r < 0 → ¬ p.r + p.r > E.WIDTH →
      (E.handle_wall_collision p).x = p.r
    ∧ (E.handle_wall_collision p).vx = |p.vx|)
  ∧ (¬ p.x - p.r < 0 → p.x + p.r > E.WIDTH →
      (E.handle_wall_collision p).x = E.WIDTH - p.r
    ∧ (E.handle_wall_collision p).vx = -|p.vx|)
  ∧ (p.y - p.r < 0 → ¬ p.r + p.r > E.HEIGHT →
      (E.handle_wall_collision p).y = p.r
    ∧ (E.handle_wall_collision p).vy = |p.vy|)
  ∧ (¬ p.y - p.r < 0 → p.y + p.r > E.HEIGHT →
      (E.handle_wall_collision p).y = E.HEIGHT - p.r
    ∧ (E.handle_wall_collision p).vy = -|p.vy|)
  ∧ (p.vx = -50 → p.x - p.r < 0 → ¬ p.r + p.r > E.WIDTH →
      (E.handle_wall_collision p).x = p.r
    ∧ (E.handle_wall_collision p).vx = 50) := by
  refine ⟨(E.wall_abs p).1, (E.wall_abs p).2, E.wall_left p, E.wall_right p,
    E.wall_top p, E.wall_bottom p, ?_⟩
  intro hv hl hw
  obtain ⟨h1, h2⟩ := E.wall_left p hl hw
  exact ⟨h1, by rw [h2, hv]; norm_num⟩

/-- Witness for C4 amended: the spec's own example, a particle with
`vx = -50` crossing the left wall comes back with `x = r`, `vx = +50`. -/
theorem C4_reflection_amended_witness :
    (E.handle_wall_collision ⟨5, 300, -50, 0, 18, 324, ""⟩).x
        = (⟨5, 300, -50, 0, 18, 324, ""⟩ : E.Particle).r
  ∧ (E.handle_wall_collision ⟨5, 300, -50, 0, 18, 324, ""⟩).vx = 50 :=
  (C4_reflection_amended ⟨5, 300, -50, 0, 18, 324, ""⟩).2.2.2.2.2.2
    rfl (by norm_num) (by norm_num [E.WIDTH])

/-- C5 counterexample: the code's restitution is hardcoded to `e = 0.95`,
not an adjustable parameter at 1; two equal-mass particles (mass 100,
radius 10, centers 15 apart, a head-on pair with velocities `(+50, 0)` and
`(-50, 0)`) leave the resolver with `v_a = (-47.5, 0)`, not the claimed
full exchange `(-50, 0)`. -/
theorem C5_head_on_counterexample :
    (15:ℚ) * 15
        = ((⟨15, 0, -50, 0, 10, 100, ""⟩ : E.Particle).x
            - (⟨0, 0, 50, 0, 10, 100, ""⟩ : E.Particle).x) *
          ((⟨15, 0, -50, 0, 10, 100, ""⟩ : E.Particle).x
            - (⟨0, 0, 50, 0, 10, 100, ""⟩ : E.Particle).x)
        + ((⟨15, 0, -50, 0, 10, 100, ""⟩ : E.Particle).y
            - (⟨0, 0, 50, 0, 10, 100, ""⟩ : E.Particle).y) *
          ((⟨15, 0, -50, 0, 10, 100, ""⟩ : E.Particle).y
            - (⟨0, 0, 50, 0, 10, 100, ""⟩ : E.Particle).y)
  ∧ (E.resolvePair ⟨0, 0, 50, 0, 10, 100, ""⟩ ⟨15, 0, -50, 0, 10, 100, ""⟩ 15).1.vx
      = -95/2
  ∧ (E.resolvePair ⟨0, 0, 50, 0, 10, 100, ""⟩ ⟨15, 0, -50, 0, 10, 100, ""⟩ 15).1.vx
      ≠ -50 := by
  refine ⟨by norm_num, ?_, ?_⟩ <;> norm_num [E.resolvePair, E.restitution]

/-- C5 amended: with the code's fixed restitution `e = 0.95`, an equal-mass
head-on collision with pre-collision velocities `(+v, 0)` and `(-v, 0)`
(`v ≥ 0`, centers overlapping along the x-axis) produces post-collision
velocities exactly `(-0.95·v, 0)` and `(+0.95·v, 0)` — the claimed full
exchange scaled by the restitution. -/
theorem C5_head_on_amended (a b : E.Particle) (v : ℚ)
    (hma : 0 < a.m) (hmeq : b.m = a.m)
    (hy : b.y = a.y) (hvya : a.vy = 0) (hvyb : b.vy = 0)
    (hva : a.vx = v) (hvb : b.vx = -v) (hv : 0 ≤ v)
    (hd : 0 < b.x - a.x) (hR : b.x - a.x ≤ a.r + b.r) :
    (E.resolvePair a b (b.x - a.x)).1.vx = -(E.restitution * v)
  ∧ (E.resolvePair a b (b.x - a.x)).1.vy = 0
  ∧ (E.resolvePair a b (b.x - a.x)).2.vx = E.restitution * v
  ∧ (E.resolvePair a b (b.x - a.x)).2.vy = 0 := by
  have hdy : b.y - a.y = 0 := by rw [hy]; ring
  have hdd : b.x - a.x ≠ 0 := ne_of_gt hd
  have hcol : (b.x - a.x) * (b.x - a.x) + (b.y - a.y) * (b.y - a.y) ≤
      (a.r + b.r) * (a.r + b.r) := by
    rw [hdy]
    have := mul_self_le_mul_self (le_of_lt hd) hR
    linarith
  have hpos : 0 < (b.x - a.x) * (b.x - a.x) + (b.y - a.y) * (b.y - a.y) := by
    rw [hdy]
    have := mul_pos hd hd
    linarith
  have hnsep : ¬ 0 < (b.vx - a.vx) * ((b.x - a.x) / (b.x - a.x)) +
      (b.vy - a.vy) * ((b.y - a.y) / (b.x - a.x)) := by
    rw [div_self hdd, hdy, hva, hvb, hvya, hvyb]
    simp
    linarith
  obtain ⟨h1, h2, h3, h4⟩ :=
    E.resolvePair_impulse a b (b.x - a.x) hcol hpos hnsep
  have hmne : a.m ≠ 0 := ne_of_gt hma
  refine ⟨?_, ?_, ?_, ?_⟩
  · rw [h1, hva, hvb, hvya, hvyb, hdy, hmeq, div_self hdd]
    field_simp
    ring
  · rw [h2, hva, hvb, hvya, hvyb, hdy, hmeq, div_self hdd]
    field_simp
  · rw [h3, hva, hvb, hvya, hvyb, hdy, hmeq, div_self hdd]
    field_simp
    ring
  · rw [h4, hva, hvb, hvya, hvyb, hdy, hmeq, div_self hdd]
    field_simp

/-- Witness for C5 amended: equal masses 100, radii 10, centers 15 apart,
`v = 40`: post velocities are exactly `(∓38, 0)`. -/
theorem C5_head_on_amended_witness :
    (E.resolvePair ⟨0, 0, 40, 0, 10, 100, ""⟩ ⟨15, 0, -40, 0, 10, 100, ""⟩ 15).1.vx
        = -(E.restitution * 40)
  ∧ (E.resolvePair ⟨0, 0, 40, 0, 10, 100, ""⟩ ⟨15, 0, -40, 0, 10, 100, ""⟩ 15).2.vx
        = E.restitution * 40 := by
  have h := C5_head_on_amended ⟨0, 0, 40, 0, 10, 100, ""⟩
    ⟨15, 0, -40, 0, 10, 100, ""⟩ 40 (by norm_num) rfl rfl rfl rfl rfl rfl
    (by norm_num) (by norm_num) (by norm_num)
  constructor
  · simpa using h.1
  · simpa using h.2.2.1

/-- C6 counterexample: a pair at center distance exactly `d = R = 20`
(combined radius 20), approaching head-on, is *processed*, not skipped:
the positional correction is zero but the impulse changes the velocities,
so re-running the resolver on this `d ≥ R` pair is not a no-op. -/
theorem C6_skip_counterexample :
    (20:ℚ) * 20
        = ((⟨20, 0, -50, 0, 10, 100, ""⟩ : E.Particle).x
            - (⟨0, 0, 50, 0, 10, 100, ""⟩ : E.Particle).x) *
          ((⟨20, 0, -50, 0, 10, 100, ""⟩ : E.Particle).x
            - (⟨0, 0, 50, 0, 10, 100, ""⟩ : E.Particle).x)
        + ((⟨20, 0, -50, 0, 10, 100, ""⟩ : E.Particle).y
            - (⟨0, 0, 50, 0, 10, 100, ""⟩ : E.Particle).y) *
          ((⟨20, 0, -50, 0, 10, 100, ""⟩ : E.Particle).y
            - (⟨0, 0, 50, 0, 10, 100, ""⟩ : E.Particle).y)
  ∧ (⟨0, 0, 50, 0, 10, 100, ""⟩ : E.Particle).r
      + (⟨20, 0, -50, 0, 10, 100, ""⟩ : E.Particle).r ≤ 20
  ∧ E.resolvePair ⟨0, 0, 50, 0, 10, 100, ""⟩ ⟨20, 0, -50, 0, 10, 100, ""⟩ 20
      ≠ (⟨0, 0, 50, 0, 10, 100, ""⟩, ⟨20, 0, -50, 0, 10, 100, ""⟩) := by
  refine ⟨by norm_num, by norm_num, ?_⟩
  intro h
  have := congrArg (fun q => (Prod.fst q).vx) h
  simp only at this
  rw [show (E.resolvePair ⟨0, 0, 50, 0, 10, 100, ""⟩
      ⟨20, 0, -50, 0, 10, 100, ""⟩ 20).1.vx = -95/2 from by
    norm_num [E.resolvePair, E.restitution]] at this
  norm_num at this

/-- C6 amended: the resolver skips a pair iff the guard fails, i.e. when
`d > R` (strictly separated, `dist2 > R²`) or the centers coincide
(`dist2 = 0`); on such pairs it is the identity, so re-running it on a
strictly separated pair changes nothing. At exact touching distance
`d = R` the pair is processed (zero positional correction, impulse applied
if approaching). -/
theorem C6_skip_amended (a b : E.Particle) (dist : ℚ)
    (h : (a.r + b.r) * (a.r + b.r) <
          (b.x - a.x) * (b.x - a.x) + (b.y - a.y) * (b.y - a.y)
       ∨ (b.x - a.x) * (b.x - a.x) + (b.y - a.y) * (b.y - a.y) = 0) :
    E.resolvePair a b dist = (a, b) := by
  apply E.resolvePair_skip
  rintro ⟨h1, h2⟩
  rcases h with h | h
  · exact absurd h1 (not_le.mpr h)
  · rw [h] at h2
    exact lt_irrefl 0 h2

/-- Witness for C6 amended: a strictly separated pair is left unchanged. -/
theorem C6_skip_amended_witness :
    E.resolvePair ⟨0, 0, 0, 0, 5, 25, ""⟩ ⟨100, 0, 0, 0, 5, 25, ""⟩ 100
      = (⟨0, 0, 0, 0, 5, 25, ""⟩, ⟨100, 0, 0, 0, 5, 25, ""⟩) :=
  C6_skip_amended ⟨0, 0, 0, 0, 5, 25, ""⟩ ⟨100, 0, 0, 0, 5, 25, ""⟩ 100
    (Or.inl (by norm_num))
